import Mathlib

/-!
Verification development for the codebase-artifact storage service
(`main.go` and the auxiliary server variants).  The Go sources are
shallowly embedded: byte buffers are `List Nat`, the filesystem is an
explicit state value, and each HTTP handler becomes a pure function from
request data (plus environmental success flags for the fallible OS calls)
to a result together with the updated filesystem.
-/

namespace ServerB

/-- Byte buffers: one `Nat` per byte (each conceptually `< 256`). -/
abbrev Bytes := List Nat

/-! ## Go string and path primitives

Paths are Unix-style: the separator is `'/'`.  `String` in Lean is a list
of characters; for the ASCII paths manipulated by the server this matches
Go's byte-level string operations. -/

/-- Models Go `strings.HasPrefix s pre`. -/
def goStartsWith (s pre : String) : Bool :=
  pre.data.isPrefixOf s.data

/-- Scans a character list for two consecutive dots. -/
def hasDDChars : List Char → Bool
  | '.' :: '.' :: _ => true
  | _ :: rest => hasDDChars rest
  | [] => false

/-- Models Go `strings.Contains s ".."` (the only `strings.Contains`
call in the source): the two-character substring `..` occurs in `s`. -/
def hasDD (s : String) : Bool := hasDDChars s.data

/-- Splits a character list on `'/'`, keeping empty components, exactly as
slash-separated path elements are delimited. -/
def splitSlash : List Char → List (List Char)
  | [] => [[]]
  | c :: rest =>
    match splitSlash rest with
    | [] => [[]]
    | s :: ss => if c = '/' then [] :: s :: ss else (c :: s) :: ss

/-- Joins path elements with `'/'` (inverse direction of `splitSlash`). -/
def joinSegs : List (List Char) → List Char
  | [] => []
  | [s] => s
  | s :: rest => s ++ '/' :: joinSegs rest

/-- One step of the lexical simplification performed by Go
`path/filepath.Clean`: push a path element onto the stack of elements
kept so far (most recent first).  `"."` and empty elements are dropped;
`".."` pops a previous real element, accumulates at the bottom of a
relative path, and is dropped at the root of a rooted path. -/
def cleanPush (rooted : Bool) (stack : List (List Char)) (seg : List Char) : List (List Char) :=
  if seg = [] ∨ seg = ['.'] then stack
  else if seg = ['.', '.'] then
    match stack with
    | [] => if rooted then [] else [['.', '.']]
    | top :: rest => if top = ['.', '.'] then seg :: top :: rest else rest
  else seg :: stack

/-- The element list produced by Go `filepath.Clean`, in order. -/
def cleanSegsList (rooted : Bool) (segs : List (List Char)) : List (List Char) :=
  (segs.foldl (cleanPush rooted) []).reverse

/-- Character-level body of Go `path/filepath.Clean` (Unix rules). -/
def cleanChars (cs : List Char) : List Char :=
  if cs = [] then ['.']
  else
    let rooted := cs.head? = some '/'
    let out := joinSegs (cleanSegsList rooted (splitSlash cs))
    if rooted then '/' :: out
    else if out = [] then ['.'] else out

/-- Models Go `filepath.Clean` (Unix). -/
def goClean (s : String) : String := String.mk (cleanChars s.data)

/-- Models Go `filepath.Join(a, b)` (Unix): empty elements are ignored,
the rest are joined with `/` and the result is cleaned. -/
def goJoin2 (a b : String) : String :=
  if a = "" then (if b = "" then "" else goClean b)
  else if b = "" then goClean a
  else goClean (a ++ "/" ++ b)

/-- Models Go `filepath.Base` (Unix): strip trailing slashes, then keep
the last element; `""` gives `"."` and an all-slash path gives `"/"`. -/
def goBase (p : String) : String :=
  if p = "" then "."
  else
    let stripped := p.data.reverse.dropWhile (· = '/')
    if stripped = [] then "/"
    else String.mk (stripped.takeWhile (· ≠ '/')).reverse

/-- Models Go `filepath.Dir` (Unix): everything up to and including the
final slash, cleaned; a path without a slash gives `"."`. -/
def goDir (p : String) : String :=
  let withSlash := (p.data.reverse.dropWhile (· ≠ '/')).reverse
  String.mk (cleanChars withSlash)

/-! ## github.com/google/uuid `Parse`

`uuid.Parse` accepts the canonical 36-character form, the
`urn:uuid:`-prefixed form (case-insensitively), a brace-wrapped form (the
closing brace is never inspected by the Go code), and the 32-character
hyphen-free form.  The embedding keeps only success/failure, which is all
the handlers use. -/

/-- ASCII hexadecimal digit (Go `xtob` accepts `0-9a-fA-F`). -/
def isHexDigit (c : Char) : Bool :=
  ('0' ≤ c ∧ c ≤ '9') ∨ ('a' ≤ c ∧ c ≤ 'f') ∨ ('A' ≤ c ∧ c ≤ 'F')

/-- Both characters of the byte at offset `i` are hexadecimal. -/
def hexPairAt (cs : List Char) (i : Nat) : Bool :=
  isHexDigit (cs.getD i ' ') && isHexDigit (cs.getD (i + 1) ' ')

/-- The canonical `xxxxxxxx-xxxx-xxxx-xxxx-xxxxxxxxxxxx` shape, checked on
the first 36 characters of `cs` exactly as `uuid.Parse` indexes them. -/
def uuidCanonical (cs : List Char) : Bool :=
  (cs.getD 8 ' ' == '-') && (cs.getD 13 ' ' == '-') &&
  (cs.getD 18 ' ' == '-') && (cs.getD 23 ' ' == '-') &&
  ([0, 2, 4, 6, 9, 11, 14, 16, 19, 21, 24, 26, 28, 30, 32, 34].all
    (hexPairAt cs))

/-- ASCII lowering, enough for the `strings.EqualFold` call on
`"urn:uuid:"` (all-ASCII). -/
def asciiLower (c : Char) : Char :=
  if 'A' ≤ c ∧ c ≤ 'Z' then Char.ofNat (c.toNat + 32) else c

/-- Success predicate of `uuid.Parse s`. -/
def uuidParseOk (s : String) : Bool :=
  let cs := s.data
  if cs.length = 36 then uuidCanonical cs
  else if cs.length = 45 then
    ((cs.take 9).map asciiLower == "urn:uuid:".data) && uuidCanonical (cs.drop 9)
  else if cs.length = 38 then uuidCanonical (cs.drop 1)
  else if cs.length = 32 then cs.all isHexDigit
  else false

/-! ## Filesystem model

The filesystem is the only shared state the handlers touch.  Files are an
association list from absolute (joined) path to contents; directories
created by `os.MkdirAll` are recorded explicitly so that emptiness after
a rollback is observable. -/

structure FS where
  files : List (String × Bytes)
  dirs : List String
  deriving DecidableEq

/-- The empty filesystem. -/
def FS.empty : FS := ⟨[], []⟩

/-- Models `os.Create` followed by a complete write of `b`: any previous
file at `p` is replaced. -/
def createFile (fs : FS) (p : String) (b : Bytes) : FS :=
  { fs with files := (p, b) :: fs.files.filter (fun e => e.1 != p) }

/-- Models `os.Remove p` for a file. -/
def removeFile (fs : FS) (p : String) : FS :=
  { fs with files := fs.files.filter (fun e => e.1 != p) }

/-- The chain `p`, `Dir p`, `Dir (Dir p)`, … of directories `os.MkdirAll`
guarantees to exist (fuel-bounded; `goDir` reaches a fixed point). -/
def dirChain : Nat → String → List String
  | 0, p => [p]
  | n + 1, p =>
    let d := goDir p
    if d = p then [p] else p :: dirChain n d

/-- Models a successful `os.MkdirAll p`. -/
def mkdirAll (fs : FS) (p : String) : FS :=
  { fs with dirs := dirChain p.data.length p ++ fs.dirs }

/-- Models `os.RemoveAll p`: `p` itself and everything below it is gone. -/
def removeAll (fs : FS) (p : String) : FS :=
  { files := fs.files.filter (fun e => !(e.1 == p || goStartsWith e.1 (p ++ "/"))),
    dirs := fs.dirs.filter (fun d => !(d == p || goStartsWith d (p ++ "/"))) }

/-- Predicate for `os.Stat` reporting a directory: explicitly created, or implied by a
stored file strictly below it. -/
def isDirFS (fs : FS) (p : String) : Bool :=
  fs.dirs.contains p || fs.files.any (fun e => goStartsWith e.1 (p ++ "/"))

/-! ## `storeFiles` (main.go, POST /store)

One multipart file part.  The `openOk`/`mkdirOk`/`createOk`/`copyOk`
flags stand for the environmental outcomes of the corresponding fallible
OS calls; `partBytes` is whatever prefix `io.Copy` managed to write when
it fails partway. -/

structure FilePart where
  filename : String
  content : Bytes
  openOk : Bool
  mkdirOk : Bool
  createOk : Bool
  copyOk : Bool
  partBytes : Bytes
  deriving DecidableEq

structure StoreRequest where
  parseFormOk : Bool
  codebaseID : String
  pathFields : List (String × String)
  parts : List FilePart
  storageMkdirOk : Bool
  deriving DecidableEq

inductive StoreOutcome where
  | parseError | missingID | invalidID | noFiles | mkdirError
  | allFailed
  | success (stored : List String) (totalSize : Nat)
  deriving DecidableEq

/-- Models `r.FormValue k`: empty string when the field is absent. -/
def formValue (fields : List (String × String)) (k : String) : String :=
  (fields.lookup k).getD ""

/-- The destination relative path of a part before cleaning: the
`path_<filename>` form field if present and non-empty, else the base
name of the part's filename (main.go lines 96-99). -/
def effPath (fields : List (String × String)) (pt : FilePart) : String :=
  let rp := formValue fields ("path_" ++ pt.filename)
  if rp = "" then goBase pt.filename else rp

/-- The body of the per-file loop of `storeFiles` (main.go lines 81-135).
The accumulator carries the filesystem, the list of stored relative
paths (most recent first) and the running byte total.  Every `continue`
in the source is a branch that returns the accumulator unchanged (except
for directories already created before the failure). -/
def storeOne (storageDir : String) (fields : List (String × String))
    (acc : FS × List String × Nat) (pt : FilePart) : FS × List String × Nat :=
  if ¬pt.openOk then acc
  else if goBase pt.filename = "" ∨ goBase pt.filename = "." ∨ goBase pt.filename = ".." then acc
  else if goStartsWith (goClean (effPath fields pt)) ".." then acc
  else if ¬pt.mkdirOk then acc
  else if ¬pt.createOk then
    (mkdirAll acc.1 (goDir (goJoin2 storageDir (goClean (effPath fields pt)))),
     acc.2.1, acc.2.2)
  else if ¬pt.copyOk then
    (removeFile
      (createFile (mkdirAll acc.1 (goDir (goJoin2 storageDir (goClean (effPath fields pt)))))
        (goJoin2 storageDir (goClean (effPath fields pt))) pt.partBytes)
      (goJoin2 storageDir (goClean (effPath fields pt))),
     acc.2.1, acc.2.2)
  else
    (createFile (mkdirAll acc.1 (goDir (goJoin2 storageDir (goClean (effPath fields pt)))))
      (goJoin2 storageDir (goClean (effPath fields pt))) pt.content,
     goClean (effPath fields pt) :: acc.2.1, acc.2.2 + pt.content.length)

/-- Models `storeFiles` (main.go lines 47-152). -/
def storeFiles (fs : FS) (root : String) (req : StoreRequest) : FS × StoreOutcome :=
  if ¬req.parseFormOk then (fs, .parseError)
  else if req.codebaseID = "" then (fs, .missingID)
  else if ¬uuidParseOk req.codebaseID then (fs, .invalidID)
  else if req.parts = [] then (fs, .noFiles)
  else if ¬req.storageMkdirOk then (fs, .mkdirError)
  else
    let storageDir := goJoin2 root req.codebaseID
    let fs1 := mkdirAll fs storageDir
    let r := req.parts.foldl (storeOne storageDir req.pathFields) (fs1, [], 0)
    if r.2.1 = [] then (removeAll r.1 storageDir, .allFailed)
    else (r.1, .success r.2.1.reverse r.2.2)

/-! ## `downloadFile` and `getFileContent` (main.go) -/

inductive DownloadOutcome where
  | invalidID | missingPath | invalidPath | notFound | isDir | openError
  | ok (content : Bytes) (filename : String)
  deriving DecidableEq

/-- Models `downloadFile` (main.go lines 228-294); `openOk` is the
outcome of `os.Open`, and a successful run streams the stored bytes with
the attachment filename. -/
def downloadFile (fs : FS) (root codebaseID filePath : String) (openOk : Bool) :
    DownloadOutcome :=
  if ¬uuidParseOk codebaseID then .invalidID
  else if filePath = "" then .missingPath
  else
    let cleanPath := goClean filePath
    if goStartsWith cleanPath ".." || hasDD cleanPath then .invalidPath
    else
      let baseDir := goJoin2 root codebaseID
      let fullPath := goJoin2 baseDir cleanPath
      if ¬goStartsWith fullPath baseDir then .invalidPath
      else
        match fs.files.lookup fullPath with
        | some b => if openOk then .ok b (goBase cleanPath) else .openError
        | none => if isDirFS fs fullPath then .isDir else .notFound

inductive ContentOutcome where
  | invalidID | missingPath | invalidPath | notFound | isDir | readError
  | ok (isText : Bool) (content : Bytes) (filePath : String)
  deriving DecidableEq

/-! ## Content classifier (`isTextFile`, main.go lines 375-417)

The float divisions `float64(count)/float64(len) > 0.01` and `> 0.05`
are modelled as the exact rational comparisons `count * 100 > len` and
`count * 100 > 5 * len`; the thresholds in all statements below are far
from any double-rounding boundary. -/

/-- A control byte as counted by the loop: `b < 32 && b != 9 && b != 10
&& b != 13`.  (A zero byte satisfies this too, exactly as in the code.) -/
def isCtrlByte (b : Nat) : Bool :=
  decide (b < 32) && b != 9 && b != 10 && b != 13

/-- A UTF-8 continuation byte. -/
def isCont (b : Nat) : Bool := decide (0x80 ≤ b) && decide (b ≤ 0xBF)

/-- One step of a byte-at-a-time acceptor for well-formed UTF-8.  The
state `(k, lo, hi)` means `k` continuation bytes are still expected and
the next byte must lie within `[lo, hi]`; at `k = 0` the byte starts a
new character.  The leading-byte table is Go `utf8.acceptRanges`:
no overlong encodings, no surrogates, nothing above U+10FFFF. -/
def utf8Step : Nat × Nat × Nat → Nat → Option (Nat × Nat × Nat)
  | (0, _, _), b =>
    if b ≤ 0x7F then some (0, 0, 0)
    else if 0xC2 ≤ b ∧ b ≤ 0xDF then some (1, 0x80, 0xBF)
    else if b = 0xE0 then some (2, 0xA0, 0xBF)
    else if (0xE1 ≤ b ∧ b ≤ 0xEC) ∨ b = 0xEE ∨ b = 0xEF then some (2, 0x80, 0xBF)
    else if b = 0xED then some (2, 0x80, 0x9F)
    else if b = 0xF0 then some (3, 0x90, 0xBF)
    else if 0xF1 ≤ b ∧ b ≤ 0xF3 then some (3, 0x80, 0xBF)
    else if b = 0xF4 then some (3, 0x80, 0x8F)
    else none
  | (k + 1, lo, hi), b =>
    if lo ≤ b ∧ b ≤ hi then some (k, 0x80, 0xBF) else none

/-- Runs the acceptor; the buffer is valid iff it ends between
characters. -/
def utf8ValidFrom : Nat × Nat × Nat → Bytes → Bool
  | st, [] => st.1 = 0
  | st, b :: rest =>
    match utf8Step st b with
    | some st2 => utf8ValidFrom st2 rest
    | none => false

/-- Models Go `unicode/utf8.Valid`. -/
def utf8Valid (l : Bytes) : Bool := utf8ValidFrom (0, 0, 0) l

/-- The counting loop of `isTextFile` (main.go lines 389-402): iterate
with the running index, and `break` as soon as `i > 8192` — so indices
`0 .. 8192` (8193 bytes) are inspected.  Returns (zero-byte count,
control-byte count). -/
def scanLoop : Nat → Bytes → Nat × Nat
  | _, [] => (0, 0)
  | i, b :: rest =>
    if i > 8192 then (0, 0)
    else
      let r := scanLoop (i + 1) rest
      ((if b = 0 then 1 else 0) + r.1, (if isCtrlByte b then 1 else 0) + r.2)

/-- Models `isTextFile` (main.go lines 375-417). -/
def isTextFile (content : Bytes) : Bool :=
  if content.length = 0 then true
  else if ¬utf8Valid content then false
  else
    let counts := scanLoop 0 content
    let contentLen := content.length
    if contentLen > 100 then
      if counts.1 * 100 > contentLen then false
      else if counts.2 * 100 > 5 * contentLen then false
      else true
    else true

/-- Models `getFileContent` (main.go lines 154-226); `readOk` is the
outcome of `os.ReadFile`. -/
def getFileContent (fs : FS) (root codebaseID filePath : String) (readOk : Bool) :
    ContentOutcome :=
  if ¬uuidParseOk codebaseID then .invalidID
  else if filePath = "" then .missingPath
  else
    let cleanPath := goClean filePath
    if goStartsWith cleanPath ".." || hasDD cleanPath then .invalidPath
    else
      let baseDir := goJoin2 root codebaseID
      let fullPath := goJoin2 baseDir cleanPath
      if ¬goStartsWith fullPath baseDir then .invalidPath
      else
        match fs.files.lookup fullPath with
        | some b => if readOk then .ok (isTextFile b) b cleanPath else .readError
        | none => if isDirFS fs fullPath then .isDir else .notFound

/-! ## The auxiliary server variant (`src/unnamed/part_000`, second file)

Its `UploadHandler` performs no identifier validation and no path
check at all: `os.MkdirAll(filepath.Join(StorageRoot, uuid), ...)` runs
before anything else. -/

def storageRootB : String := "./mock-zfs-storage"

inductive UploadBOutcome where
  | mkdirError | parseError | noForm | allFailed | success (n : Nat)
  deriving DecidableEq

structure UploadBRequest where
  mkdirOk : Bool
  parseFormOk : Bool
  formPresent : Bool
  fields : List (String × List FilePart)
  deriving DecidableEq

/-- Per-file body of the variant's upload loop (part_000 lines 198-234):
the target is `Join(basePath, header.Filename)` with no cleaning and no
traversal check. -/
def storeOneB (basePath : String) (acc : FS × Nat) (pt : FilePart) : FS × Nat :=
  if ¬pt.openOk then acc
  else if ¬pt.mkdirOk then acc
  else if ¬pt.createOk then
    (mkdirAll acc.1 (goDir (goJoin2 basePath pt.filename)), acc.2)
  else if ¬pt.copyOk then
    (removeFile
      (createFile (mkdirAll acc.1 (goDir (goJoin2 basePath pt.filename)))
        (goJoin2 basePath pt.filename) pt.partBytes)
      (goJoin2 basePath pt.filename), acc.2)
  else
    (createFile (mkdirAll acc.1 (goDir (goJoin2 basePath pt.filename)))
      (goJoin2 basePath pt.filename) pt.content, acc.2 + 1)

/-- Models `UploadHandler` (part_000 lines 169-244).  Note the order:
the storage directory for the raw `{uuid}` route variable is created
before the form is even parsed, and no identifier format check exists. -/
def uploadHandlerB (fs : FS) (uuid : String) (req : UploadBRequest) :
    FS × UploadBOutcome :=
  let basePath := goJoin2 storageRootB uuid
  if ¬req.mkdirOk then (fs, .mkdirError)
  else
    let fs1 := mkdirAll fs basePath
    if ¬req.parseFormOk then (fs1, .parseError)
    else if ¬req.formPresent then (fs1, .noForm)
    else
      let r := ((req.fields.map (·.2)).flatten).foldl (storeOneB basePath) (fs1, 0)
      if r.2 = 0 then (r.1, .allFailed)
      else (r.1, .success r.2)

/-! ## ZIP archive building (`createZipArchive`, main.go lines 328-373)

`filepath.WalkDir` visits the tree depth-first, reading each directory
in lexical order.  That deterministic visiting order equals sorting all
tree nodes by segment-wise lexicographic order on their relative paths,
which is how the walk is modelled here.  The walk root itself is visited
with relative path `"."` and skipped by the source, so the model only
enumerates strict descendants. -/

structure ZipEntry where
  name : String
  isDir : Bool
  data : Bytes
  deriving DecidableEq

/-- Character-list lexicographic order (Go's byte order on ASCII names). -/
def charListLt : List Char → List Char → Bool
  | [], [] => false
  | [], _ :: _ => true
  | _ :: _, [] => false
  | a :: as, b :: bs => if a < b then true else if b < a then false else charListLt as bs

/-- Segment-wise lexicographic order on relative paths; this is the
visiting order of `filepath.WalkDir` over the strict descendants. -/
def segListLt : List (List Char) → List (List Char) → Bool
  | [], [] => false
  | [], _ :: _ => true
  | _ :: _, [] => false
  | a :: as, b :: bs =>
    if charListLt a b then true else if charListLt b a then false else segListLt as bs

def insertNode (x : List (List Char)) : List (List (List Char)) → List (List (List Char))
  | [] => [x]
  | y :: ys => if segListLt y x then y :: insertNode x ys else x :: y :: ys

/-- Insertion sort by `segListLt`. -/
def sortNodes (l : List (List (List Char))) : List (List (List Char)) :=
  l.foldr insertNode []

/-- All nonempty proper ancestors of a relative segment path:
`[a,b,c] ↦ [[a],[a,b]]`. -/
def ancSegs : List (List Char) → List (List (List Char))
  | [] => []
  | [_] => []
  | s :: rest => [s] :: (ancSegs rest).map (fun t => s :: t)

/-- The relative segment path of `p` under `base` (`filepath.Rel` for a
strict descendant), or `none` when `p` is not strictly below `base`. -/
def relStrip (base p : String) : Option (List (List Char)) :=
  if goStartsWith p (base ++ "/") then
    some (splitSlash (p.data.drop (base.data.length + 1)))
  else none

/-- Models `strings.ReplaceAll relPath "\\" "/"` — character-wise, since the
pattern is a single character. -/
def backToSlash (cs : List Char) : List Char :=
  cs.map (fun c => if c = '\x5c' then '/' else c)

/-- Models `createZipArchive w sourceDir` (main.go lines 328-373): the
sequence of ZIP entries written.  Directories become explicit entries
named `rel ++ "/"`; files carry their stored bytes. -/
def createZipArchive (fs : FS) (sourceDir : String) : List ZipEntry :=
  let fileMap := fs.files.filterMap
    (fun e => (relStrip sourceDir e.1).map (fun r => (r, e.2)))
  let fileRels := (fileMap.map (·.1)).dedup
  let dirRels := fs.dirs.filterMap (fun d => relStrip sourceDir d)
  let dirNodes := ((fileRels.map ancSegs).flatten ++ dirRels).dedup
  let nodes := sortNodes (dirNodes ++ fileRels.filter (fun r => !(dirNodes.contains r)))
  nodes.map (fun segs =>
    let name := String.mk (backToSlash (joinSegs segs))
    if dirNodes.contains segs then ⟨name ++ "/", true, []⟩
    else ⟨name, false, (fileMap.lookup segs).getD []⟩)

/-- Models the ZIP walk of `DownloadZipHandler` in the auxiliary variant
(part_000 lines 315-358): identical traversal, but directory nodes are
skipped (`info.IsDir() → return nil`), so only file entries appear. -/
def zipEntriesB (fs : FS) (sourceDir : String) : List ZipEntry :=
  let fileMap := fs.files.filterMap
    (fun e => (relStrip sourceDir e.1).map (fun r => (r, e.2)))
  let fileRels := (fileMap.map (·.1)).dedup
  let nodes := sortNodes fileRels
  nodes.map (fun segs =>
    ⟨String.mk (backToSlash (joinSegs segs)), false, (fileMap.lookup segs).getD []⟩)

/-! ## Semantic escape predicate

A caller-supplied relative path "normalizes to a location outside the
codebase root" precisely when resolving its `.`/`..` segments left to
right ever steps above the starting directory.  This definition scans
segments with a depth counter and is independent of the string-level
checks performed by the handlers. -/

def escapeScan : Nat → List (List Char) → Bool
  | _, [] => false
  | depth, seg :: rest =>
    if seg = [] ∨ seg = ['.'] then escapeScan depth rest
    else if seg = ['.', '.'] then
      match depth with
      | 0 => true
      | d + 1 => escapeScan d rest
    else escapeScan (depth + 1) rest

/-- The relative path `p` resolves to a location outside the directory
it is interpreted against. -/
def resolvesOutside (p : String) : Bool :=
  !(p.data.head? == some '/') && escapeScan 0 (splitSlash p.data)

/-- Modelled from the spec: "re-verify the resulting absolute path has
the expected codebase directory as a strict prefix" — the joined path is
a strict descendant of the codebase directory, i.e. extends it past a
path separator. -/
def specStrictContain (baseDir fullPath : String) : Bool :=
  goStartsWith fullPath (baseDir ++ "/")

/-! ## Reference classifier from the specification -/

/-- Modelled from the spec (the reference classifier of claim C8):
empty → text; invalid Unicode → binary; otherwise count zero bytes and
control bytes over at most the first 8192 bytes, and when the total
length exceeds 100, a zero-byte ratio over the inspected window above 1%
or a control-byte ratio above 5% means binary; otherwise text. -/
def specIsTextFile (content : Bytes) : Bool :=
  if content.length = 0 then true
  else if ¬utf8Valid content then false
  else
    let w := content.take 8192
    let nulls := w.countP (· == 0)
    let ctrls := w.countP isCtrlByte
    if content.length > 100 then
      if nulls * 100 > w.length then false
      else if ctrls * 100 > 5 * w.length then false
      else true
    else true

/-- The classifier of the amended claim C8, in the same rule style as the
spec's wording but with the two details the code actually implements:
the window is the first 8193 bytes (the loop breaks only after index
8192), and both ratios are taken over the total buffer length, not over
the inspected window. -/
def specIsTextFileAmended (content : Bytes) : Bool :=
  if content.length = 0 then true
  else if ¬utf8Valid content then false
  else
    let w := content.take 8193
    let nulls := w.countP (· == 0)
    let ctrls := w.countP isCtrlByte
    if content.length > 100 then
      if nulls * 100 > content.length then false
      else if ctrls * 100 > 5 * content.length then false
      else true
    else true

/-! ## Derived predicates for the upload loop -/

/-- A part succeeds: every environmental flag is set, the base name of
its filename is acceptable and its cleaned destination does not begin
with `..`.  This mirrors exactly the skip conditions of `storeOne`. -/
def partOk (fields : List (String × String)) (pt : FilePart) : Bool :=
  pt.openOk &&
  !(goBase pt.filename == "" || goBase pt.filename == "." || goBase pt.filename == "..") &&
  !(goStartsWith (goClean (effPath fields pt)) "..") &&
  pt.mkdirOk && pt.createOk && pt.copyOk

/-- The absolute destination path of a part. -/
def destOf (storageDir : String) (fields : List (String × String)) (pt : FilePart) : String :=
  goJoin2 storageDir (goClean (effPath fields pt))

/-! ## Concrete fixtures used by counterexamples and witnesses -/

/-- A syntactically valid codebase identifier. -/
def cidC : String := "123e4567-e89b-12d3-a456-426614174000"

/-- The codebase directory for `cidC` under storage root `/s`. -/
def baseC : String := goJoin2 "/s" cidC

/-- A filesystem in which the codebase directory for `cidC` exists. -/
def fsD : FS := ⟨[], [baseC]⟩

/-- Valid UTF-8, 8400 bytes, with 83 zero bytes up front: the code
divides the zero count by the total length (83/8400 ≤ 1%) while the
spec's reference classifier divides by the 8192-byte window
(83/8192 > 1%). -/
def cbuf : Bytes := List.replicate 83 0 ++ List.replicate 8317 97

/-- Ten bytes with exactly one zero byte: one null byte per 10 bytes. -/
def buf10 : Bytes := [0, 97, 97, 97, 97, 97, 97, 97, 97, 97]

/-- A codebase holding exactly the files `x.txt` and `sub/y.bin`. -/
def zipFS (xb yb : Bytes) : FS :=
  ⟨[(baseC ++ "/x.txt", xb), (baseC ++ "/sub/y.bin", yb)], [baseC, baseC ++ "/sub"]⟩

/-! ## Association-list lemmas -/

theorem lookup_filter_of_false {β : Type} (l : List (String × β)) (q : String)
    (pred : String → Bool) (h : pred q = false) :
    (l.filter (fun e => pred e.1)).lookup q = none := by
  induction l with
  | nil => rfl
  | cons e rest ih =>
    obtain ⟨k, v⟩ := e
    by_cases he : pred k
    · have hne : (q == k) = false := by
        cases hq : q == k
        · rfl
        · have : q = k := by simpa using hq
          rw [this] at h
          simp [he] at h
      simp only [List.filter_cons, he, if_true, List.lookup, hne]
      exact ih
    · simp only [List.filter_cons, if_neg he]
      exact ih

theorem lookup_filter_of_true {β : Type} (l : List (String × β)) (q : String)
    (pred : String → Bool) (h : pred q = true) :
    (l.filter (fun e => pred e.1)).lookup q = l.lookup q := by
  induction l with
  | nil => rfl
  | cons e rest ih =>
    obtain ⟨k, v⟩ := e
    by_cases he : pred k
    · simp only [List.filter_cons, he, if_true, List.lookup]
      cases q == k <;> simp [ih]
    · have hne : (q == k) = false := by
        cases hq : q == k
        · rfl
        · have : q = k := by simpa using hq
          rw [this] at h
          simp [h] at he
      simp only [List.filter_cons, if_neg he, List.lookup, hne]
      exact ih

theorem lookup_createFile_self (fs : FS) (p : String) (b : Bytes) :
    (createFile fs p b).files.lookup p = some b := by
  simp [createFile, List.lookup]

theorem lookup_createFile_ne (fs : FS) (p q : String) (b : Bytes) (h : p ≠ q) :
    (createFile fs p b).files.lookup q = fs.files.lookup q := by
  have hpq : (q == p) = false := by simpa using Ne.symm h
  simp only [createFile, List.lookup, hpq]
  exact lookup_filter_of_true fs.files q (fun k => k != p) (by simp [Ne.symm h])

theorem lookup_removeFile_self (fs : FS) (p : String) :
    (removeFile fs p).files.lookup p = none :=
  lookup_filter_of_false fs.files p (fun k => k != p) (by simp)

theorem lookup_removeFile_ne (fs : FS) (p q : String) (h : p ≠ q) :
    (removeFile fs p).files.lookup q = fs.files.lookup q :=
  lookup_filter_of_true fs.files q (fun k => k != p) (by simp [Ne.symm h])

theorem lookup_removeAll_under (fs : FS) (p q : String)
    (h : q = p ∨ goStartsWith q (p ++ "/") = true) :
    (removeAll fs p).files.lookup q = none :=
  lookup_filter_of_false fs.files q
    (fun k => !(k == p || goStartsWith k (p ++ "/")))
    (by rcases h with h | h <;> simp [h])

theorem mkdirAll_files (fs : FS) (p : String) : (mkdirAll fs p).files = fs.files := rfl

/-! ## The cleaned form of an escaping relative path

`escapeScan` steps above the start of a relative path exactly when the
stack built by `cleanPush` keeps a `..` at its bottom, which in turn
makes the cleaned string begin with `..`. -/

theorem cleanPush_dotBottom (seg : List Char) (stack : List (List Char))
    (h : stack.getLast? = some ['.', '.']) :
    (cleanPush false stack seg).getLast? = some ['.', '.'] := by
  cases stack with
  | nil => simp at h
  | cons t ts =>
    by_cases h1 : seg = [] ∨ seg = ['.']
    · simpa [cleanPush, h1] using h
    · by_cases h2 : seg = ['.', '.']
      · by_cases h3 : t = ['.', '.']
        · simp only [cleanPush, if_neg h1, if_pos h2, if_pos h3]
          rw [List.getLast?_cons_cons]
          exact h
        · simp only [cleanPush, if_neg h1, if_pos h2, if_neg h3]
          cases ts with
          | nil => simp at h; exact absurd h h3
          | cons u us => rwa [List.getLast?_cons_cons] at h
      · simp only [cleanPush, if_neg h1, if_neg h2]
        rw [List.getLast?_cons_cons]
        exact h

theorem foldl_cleanPush_dotBottom (segs : List (List Char)) :
    ∀ stack, stack.getLast? = some ['.', '.'] →
      (List.foldl (cleanPush false) stack segs).getLast? = some ['.', '.'] := by
  induction segs with
  | nil => intro stack h; exact h
  | cons s rest ih =>
    intro stack h
    rw [List.foldl_cons]
    exact ih _ (cleanPush_dotBottom s stack h)

theorem escapeScan_iff_dotBottom (segs : List (List Char)) :
    ∀ stack : List (List Char),
      (∀ s ∈ stack, ¬(s = [] ∨ s = ['.'] ∨ s = ['.', '.'])) →
      (escapeScan stack.length segs = true ↔
        (List.foldl (cleanPush false) stack segs).getLast? = some ['.', '.']) := by
  induction segs with
  | nil =>
    intro stack hstack
    simp only [escapeScan, List.foldl_nil]
    constructor
    · intro h; cases h
    · intro h
      have hmem : ['.', '.'] ∈ stack := by
        have hopt : ['.', '.'] ∈ stack.getLast? := Option.mem_def.mpr h
        obtain ⟨hne, heq⟩ := List.mem_getLast?_eq_getLast hopt
        rw [heq]
        exact List.getLast_mem hne
      exact absurd (Or.inr (Or.inr rfl)) (hstack _ hmem)
  | cons s rest ih =>
    intro stack hstack
    rw [List.foldl_cons]
    by_cases h1 : s = [] ∨ s = ['.']
    · have hpush : cleanPush false stack s = stack := by simp [cleanPush, h1]
      have hscan : escapeScan stack.length (s :: rest) = escapeScan stack.length rest := by
        simp [escapeScan, h1]
      rw [hpush, hscan]
      exact ih stack hstack
    · by_cases h2 : s = ['.', '.']
      · cases stack with
        | nil =>
          have hscan : escapeScan ([] : List (List Char)).length (s :: rest) = true := by
            simp [escapeScan, h1, h2]
          have hpush : cleanPush false [] s = [['.', '.']] := by
            simp [cleanPush, h1, h2]
          rw [hscan, hpush]
          simp only [true_iff]
          exact foldl_cleanPush_dotBottom rest _ rfl
        | cons t ts =>
          have ht : ¬(t = [] ∨ t = ['.'] ∨ t = ['.', '.']) := hstack t (by simp)
          have ht2 : t ≠ ['.', '.'] := fun hh => ht (Or.inr (Or.inr hh))
          have hpush : cleanPush false (t :: ts) s = ts := by
            simp [cleanPush, h1, h2, ht2]
          have hscan : escapeScan (t :: ts).length (s :: rest) = escapeScan ts.length rest := by
            simp [escapeScan, h1, h2, List.length_cons]
          rw [hpush, hscan]
          exact ih ts (fun u hu => hstack u (by simp [hu]))
      · have hpush : cleanPush false stack s = s :: stack := by
          simp [cleanPush, h1, h2]
        have hscan : escapeScan stack.length (s :: rest) = escapeScan (stack.length + 1) rest := by
          simp [escapeScan, h1, h2]
        rw [hpush, hscan]
        have : (s :: stack).length = stack.length + 1 := rfl
        rw [← this]
        exact ih (s :: stack) (by
          intro u hu
          rcases List.mem_cons.mp hu with hh | hh
          · rw [hh]; intro hc; rcases hc with hc | hc | hc
            · exact h1 (Or.inl hc)
            · exact h1 (Or.inr hc)
            · exact h2 hc
          · exact hstack u hh)

/-- The central traversal fact: a relative path that resolves outside
its base directory cleans to a string that begins with `..`, which both
handlers' string checks reject. -/
theorem resolvesOutside_goClean (p : String) (h : resolvesOutside p = true) :
    goStartsWith (goClean p) ".." = true := by
  unfold resolvesOutside at h
  rw [Bool.and_eq_true] at h
  obtain ⟨h1, h2⟩ := h
  have hroot : ¬(p.data.head? = some '/') := by
    intro hc
    rw [hc] at h1
    simp at h1
  have hbot : (List.foldl (cleanPush false) [] (splitSlash p.data)).getLast?
      = some ['.', '.'] :=
    (escapeScan_iff_dotBottom (splitSlash p.data) [] (by intro s hs; simp at hs)).mp h2
  have hcs : p.data ≠ [] := by
    intro hc
    rw [hc] at h2
    simp [splitSlash, escapeScan] at h2
  have hhead : (cleanSegsList false (splitSlash p.data)).head? = some ['.', '.'] := by
    unfold cleanSegsList
    rw [List.head?_reverse]
    exact hbot
  obtain ⟨qs, hqs⟩ : ∃ qs, cleanSegsList false (splitSlash p.data) = ['.', '.'] :: qs := by
    cases hrev : cleanSegsList false (splitSlash p.data) with
    | nil => rw [hrev] at hhead; simp at hhead
    | cons q t =>
      rw [hrev] at hhead
      simp only [List.head?_cons, Option.some.injEq] at hhead
      exact ⟨t, by rw [hhead]⟩
  have hdec : decide (p.data.head? = some '/') = false := decide_eq_false hroot
  unfold goClean cleanChars
  rw [if_neg hcs]
  simp only [hdec, Bool.false_eq_true, if_false, if_neg hroot]
  rw [hqs]
  cases qs with
  | nil => simp [joinSegs, goStartsWith, List.isPrefixOf]
  | cons q' qs' =>
    have hout : joinSegs (['.', '.'] :: q' :: qs') = '.' :: '.' :: '/' :: joinSegs (q' :: qs') := rfl
    rw [hout]
    simp [goStartsWith, List.isPrefixOf]

/-! ## Behaviour of the per-file upload loop -/

/-- The stored-paths component after one loop body run: the part's
cleaned destination is recorded exactly when every skip condition is
avoided. -/
theorem storeOne_stored (d : String) (fields : List (String × String))
    (acc : FS × List String × Nat) (pt : FilePart) :
    (storeOne d fields acc pt).2.1 =
      if partOk fields pt then goClean (effPath fields pt) :: acc.2.1 else acc.2.1 := by
  unfold storeOne partOk
  by_cases ho : pt.openOk = true
  · by_cases hb : goBase pt.filename = "" ∨ goBase pt.filename = "." ∨ goBase pt.filename = ".."
    · rcases hb with hb | hb | hb <;> simp [ho, hb]
    · push_neg at hb
      obtain ⟨hb1, hb2, hb3⟩ := hb
      by_cases hp : goStartsWith (goClean (effPath fields pt)) ".." = true
      · simp [ho, hb1, hb2, hb3, hp]
      · by_cases hm : pt.mkdirOk = true
        · by_cases hc : pt.createOk = true
          · by_cases hw : pt.copyOk = true
            · simp [ho, hb1, hb2, hb3, hp, hm, hc, hw]
            · simp [ho, hb1, hb2, hb3, hp, hm, hc, hw]
          · simp [ho, hb1, hb2, hb3, hp, hm, hc]
        · simp [ho, hb1, hb2, hb3, hp, hm]
  · simp [ho]

/-- Stored paths of the whole loop: the cleaned destinations of exactly
the parts that pass every check, most recent first. -/
theorem foldl_storeOne_stored (d : String) (fields : List (String × String))
    (parts : List FilePart) :
    ∀ acc : FS × List String × Nat,
      (parts.foldl (storeOne d fields) acc).2.1 =
        ((parts.filter (partOk fields)).map
          (fun pt => goClean (effPath fields pt))).reverse ++ acc.2.1 := by
  induction parts with
  | nil => intro acc; simp
  | cons pt rest ih =>
    intro acc
    rw [List.foldl_cons]
    by_cases hpt : partOk fields pt
    · rw [List.filter_cons_of_pos hpt, List.map_cons, List.reverse_cons, List.append_assoc]
      rw [ih (storeOne d fields acc pt)]
      rw [storeOne_stored, if_pos hpt]
      simp
    · rw [List.filter_cons_of_neg (by simpa using hpt)]
      rw [ih (storeOne d fields acc pt)]
      rw [storeOne_stored, if_neg hpt]

/-- One loop body run never touches a file entry at any path other than
the part's own destination. -/
theorem storeOne_lookup_ne (d : String) (fields : List (String × String))
    (acc : FS × List String × Nat) (pt : FilePart) (q : String)
    (h : destOf d fields pt ≠ q) :
    (storeOne d fields acc pt).1.files.lookup q = acc.1.files.lookup q := by
  replace h : goJoin2 d (goClean (effPath fields pt)) ≠ q := h
  unfold storeOne
  split
  · rfl
  · split
    · rfl
    · split
      · rfl
      · split
        · rfl
        · split
          · rfl
          · split
            · rw [lookup_removeFile_ne _ _ _ h, lookup_createFile_ne _ _ _ _ h]
              rfl
            · rw [lookup_createFile_ne _ _ _ _ h]
              rfl

/-- Loop-level frame property for file contents. -/
theorem foldl_storeOne_lookup_ne (d : String) (fields : List (String × String))
    (parts : List FilePart) :
    ∀ (acc : FS × List String × Nat) (q : String),
      (∀ pt ∈ parts, destOf d fields pt ≠ q) →
      (parts.foldl (storeOne d fields) acc).1.files.lookup q = acc.1.files.lookup q := by
  induction parts with
  | nil => intro acc q _; rfl
  | cons pt rest ih =>
    intro acc q h
    rw [List.foldl_cons, ih _ q (fun u hu => h u (by simp [hu]))]
    exact storeOne_lookup_ne d fields acc pt q (h pt (by simp))

/-- A part that fails at the copy stage leaves no file at its
destination: the partially written file is removed. -/
theorem storeOne_copyFail_lookup (d : String) (fields : List (String × String))
    (acc : FS × List String × Nat) (pt : FilePart)
    (ho : pt.openOk = true)
    (hb1 : goBase pt.filename ≠ "") (hb2 : goBase pt.filename ≠ ".")
    (hb3 : goBase pt.filename ≠ "..")
    (hp : goStartsWith (goClean (effPath fields pt)) ".." = false)
    (hm : pt.mkdirOk = true) (hc : pt.createOk = true) (hw : pt.copyOk = false) :
    (storeOne d fields acc pt).1.files.lookup (destOf d fields pt) = none := by
  unfold storeOne
  rw [if_neg (by simp [ho]), if_neg (by simp [hb1, hb2, hb3]), if_neg (by simp [hp]),
    if_neg (by simp [hm]), if_neg (by simp [hc]), if_pos (by simp [hw])]
  exact lookup_removeFile_self _ _

/-! ## Classifier lemmas -/

/-- The indexed loop equals counting over the 8193-byte window that the
`break` leaves in reach. -/
theorem scanLoop_eq_take (l : Bytes) :
    ∀ i : Nat, i ≤ 8193 →
      scanLoop i l =
        ((l.take (8193 - i)).countP (· == 0), (l.take (8193 - i)).countP isCtrlByte) := by
  induction l with
  | nil => intro i _; simp [scanLoop]
  | cons b rest ih =>
    intro i hi
    by_cases hbig : i > 8192
    · have : i = 8193 := by omega
      subst this
      simp [scanLoop]
    · have hstep : 8193 - i = (8193 - (i + 1)) + 1 := by omega
      rw [scanLoop, if_neg hbig, ih (i + 1) (by omega), hstep, List.take_succ_cons,
        List.countP_cons, List.countP_cons]
      have hz : (if b = 0 then 1 else 0) = (if (b == 0) = true then 1 else 0) := by
        by_cases hb : b = 0 <;> simp [hb]
      rw [hz]
      simp [Nat.add_comm]

theorem utf8Valid_ascii (l : Bytes) (h : ∀ b ∈ l, b < 128) : utf8Valid l = true := by
  unfold utf8Valid
  induction l with
  | nil => rfl
  | cons b rest ih =>
    have hb : b ≤ 0x7F := by
      have := h b (by simp)
      omega
    rw [utf8ValidFrom, utf8Step, if_pos hb]
    exact ih (fun x hx => h x (by simp [hx]))

/-- The function `isTextFile` restated with window counts, which is the amended
reference classifier. -/
theorem isTextFile_eq_amended (content : Bytes) :
    isTextFile content = specIsTextFileAmended content := by
  unfold isTextFile specIsTextFileAmended
  rw [scanLoop_eq_take content 0 (by omega)]

/-! ## Running `storeFiles` under a well-formed request -/

theorem uuidParseOk_ne_empty (c : String) (h : uuidParseOk c = true) : c ≠ "" := by
  intro hc
  rw [hc] at h
  exact absurd h (by decide)

theorem storeFiles_eq_run (fs : FS) (root : String) (req : StoreRequest)
    (hparse : req.parseFormOk = true) (hid : uuidParseOk req.codebaseID = true)
    (hne : req.parts ≠ []) (hmk : req.storageMkdirOk = true) :
    storeFiles fs root req =
      (if ((req.parts.foldl (storeOne (goJoin2 root req.codebaseID) req.pathFields)
            (mkdirAll fs (goJoin2 root req.codebaseID), [], 0)).2.1) = [] then
        (removeAll
          (req.parts.foldl (storeOne (goJoin2 root req.codebaseID) req.pathFields)
            (mkdirAll fs (goJoin2 root req.codebaseID), [], 0)).1
          (goJoin2 root req.codebaseID), .allFailed)
      else
        ((req.parts.foldl (storeOne (goJoin2 root req.codebaseID) req.pathFields)
            (mkdirAll fs (goJoin2 root req.codebaseID), [], 0)).1,
         .success
           ((req.parts.foldl (storeOne (goJoin2 root req.codebaseID) req.pathFields)
              (mkdirAll fs (goJoin2 root req.codebaseID), [], 0)).2.1).reverse
           ((req.parts.foldl (storeOne (goJoin2 root req.codebaseID) req.pathFields)
              (mkdirAll fs (goJoin2 root req.codebaseID), [], 0)).2.2))) := by
  unfold storeFiles
  rw [if_neg (by simp [hparse]), if_neg (by simp [uuidParseOk_ne_empty _ hid]),
    if_neg (by simp [hid]), if_neg (by simp [hne]), if_neg (by simp [hmk])]

/-! ## Claim theorems -/

/-- C1.  Every caller-supplied relative path that normalizes to a
location outside the codebase root is rejected: the upload loop skips
the file (leaving the accumulator untouched, so nothing is written and
it is not counted), and both download handlers answer `InvalidPath`. -/
theorem c1_traversal_rejected (p : String) (hesc : resolvesOutside p = true) :
    (∀ (d : String) (fields : List (String × String)) (acc : FS × List String × Nat)
        (pt : FilePart), effPath fields pt = p → storeOne d fields acc pt = acc) ∧
    (∀ (fs : FS) (root cid : String) (oOk : Bool), uuidParseOk cid = true →
        downloadFile fs root cid p oOk = .invalidPath) ∧
    (∀ (fs : FS) (root cid : String) (rOk : Bool), uuidParseOk cid = true →
        getFileContent fs root cid p rOk = .invalidPath) := by
  have hstart : goStartsWith (goClean p) ".." = true := resolvesOutside_goClean p hesc
  have hp : p ≠ "" := by
    intro hc
    rw [hc] at hesc
    exact absurd hesc (by decide)
  refine ⟨?_, ?_, ?_⟩
  · intro d fields acc pt heff
    unfold storeOne
    split
    · rfl
    · split
      · rfl
      · rw [heff, if_pos hstart]
  · intro fs root cid oOk hid
    unfold downloadFile
    rw [if_neg (by simp [hid]), if_neg hp, if_pos (by simp [hstart])]
  · intro fs root cid rOk hid
    unfold getFileContent
    rw [if_neg (by simp [hid]), if_neg hp, if_pos (by simp [hstart])]

/-- Witness for C1 at `../../etc/passwd`. -/
theorem c1_traversal_rejected_witness :
    downloadFile FS.empty "/s" cidC "../../etc/passwd" true = .invalidPath ∧
    getFileContent FS.empty "/s" cidC "../../etc/passwd" true = .invalidPath ∧
    storeOne "/s/x" [("path_f", "../../etc/passwd")] (FS.empty, [], 0)
      ⟨"f", [1], true, true, true, true, []⟩ = (FS.empty, [], 0) :=
  ⟨(c1_traversal_rejected "../../etc/passwd" (by decide)).2.1 _ _ _ _ (by decide),
   (c1_traversal_rejected "../../etc/passwd" (by decide)).2.2 _ _ _ _ (by decide),
   (c1_traversal_rejected "../../etc/passwd" (by decide)).1 _ _ _ _ (by decide)⟩

/-- C2.  Round trip: for a valid CodebaseID and any relative path that
both endpoints accept, storing a file with contents `b` and then
downloading the same path succeeds and streams exactly `b`. -/
theorem c2_round_trip (fs : FS) (root cid p fn : String) (b : Bytes)
    (fields : List (String × String))
    (hid : uuidParseOk cid = true)
    (hp : p ≠ "")
    (heff : effPath fields ⟨fn, b, true, true, true, true, []⟩ = p)
    (hb1 : goBase fn ≠ "") (hb2 : goBase fn ≠ ".") (hb3 : goBase fn ≠ "..")
    (hdot : goStartsWith (goClean p) ".." = false)
    (hdd : hasDD (goClean p) = false)
    (hpre : goStartsWith (goJoin2 (goJoin2 root cid) (goClean p)) (goJoin2 root cid) = true) :
    (storeFiles fs root ⟨true, cid, fields, [⟨fn, b, true, true, true, true, []⟩], true⟩).2 =
      .success [goClean p] b.length ∧
    downloadFile
      (storeFiles fs root ⟨true, cid, fields, [⟨fn, b, true, true, true, true, []⟩], true⟩).1
      root cid p true = .ok b (goBase (goClean p)) := by
  have hrun := storeFiles_eq_run fs root
    ⟨true, cid, fields, [⟨fn, b, true, true, true, true, []⟩], true⟩
    rfl hid (by simp) rfl
  have hone : storeOne (goJoin2 root cid) fields
      (mkdirAll fs (goJoin2 root cid), [], 0) ⟨fn, b, true, true, true, true, []⟩ =
      (createFile
        (mkdirAll (mkdirAll fs (goJoin2 root cid))
          (goDir (goJoin2 (goJoin2 root cid) (goClean p))))
        (goJoin2 (goJoin2 root cid) (goClean p)) b,
       [goClean p], b.length) := by
    unfold storeOne
    rw [if_neg (by simp), if_neg (by simp [hb1, hb2, hb3]), heff, if_neg (by simp [hdot]),
      if_neg (by simp), if_neg (by simp), if_neg (by simp)]
    simp
  rw [hrun]
  dsimp only
  simp only [List.foldl_cons, List.foldl_nil, hone]
  rw [if_neg (by simp)]
  constructor
  · simp
  · unfold downloadFile
    rw [if_neg (by simp [hid]), if_neg hp, if_neg (by simp [hdot, hdd]),
      if_neg (by simp [hpre]), lookup_createFile_self]
    simp

/-- Witness for C2: store then download `a/b/c.txt` with bytes
`[0, 255, 10]`. -/
theorem c2_round_trip_witness :
    (storeFiles FS.empty "/s"
      ⟨true, cidC, [("path_c.txt", "a/b/c.txt")],
        [⟨"c.txt", [0, 255, 10], true, true, true, true, []⟩], true⟩).2 =
      .success [goClean "a/b/c.txt"] 3 ∧
    downloadFile
      (storeFiles FS.empty "/s"
        ⟨true, cidC, [("path_c.txt", "a/b/c.txt")],
          [⟨"c.txt", [0, 255, 10], true, true, true, true, []⟩], true⟩).1
      "/s" cidC "a/b/c.txt" true = .ok [0, 255, 10] (goBase (goClean "a/b/c.txt")) :=
  c2_round_trip FS.empty "/s" cidC "a/b/c.txt" "c.txt" [0, 255, 10]
    [("path_c.txt", "a/b/c.txt")] (by decide) (by decide) (by decide) (by decide)
    (by decide) (by decide) (by decide) (by decide) (by decide)

/-- C3 counterexample.  The download request `file=.` joins to the
codebase directory itself, which is not a strict descendant of it, yet
the handler does not fail with `InvalidPath`: it reports the directory
type mismatch instead.  The re-verification is therefore not a
strict-prefix check. -/
theorem c3_strict_prefix_counterexample :
    specStrictContain baseC (goJoin2 baseC (goClean ".")) = false ∧
    downloadFile fsD "/s" cidC "." true = .isDir ∧
    downloadFile fsD "/s" cidC "." true ≠ .invalidPath := by
  refine ⟨by decide, by decide, ?_⟩
  intro h
  rw [(by decide : downloadFile fsD "/s" cidC "." true = .isDir)] at h
  cases h

/-- C3 amended.  After joining, both download handlers re-verify only
that the joined path has the codebase directory as a plain (non-strict)
string prefix: the request fails with `InvalidPath` exactly when the
cleaned path begins with `..`, contains `..`, or the joined path lacks
that plain prefix.  A path equal to the codebase directory itself, or a
hypothetical sibling whose name extends the directory's name, would
pass the check. -/
theorem c3_amended_plain_prefix_check (fs : FS) (root cid p : String) (oOk rOk : Bool)
    (hid : uuidParseOk cid = true) (hp : p ≠ "") :
    (downloadFile fs root cid p oOk = .invalidPath ↔
      (goStartsWith (goClean p) ".." || hasDD (goClean p) ||
        !goStartsWith (goJoin2 (goJoin2 root cid) (goClean p)) (goJoin2 root cid)) = true) ∧
    (getFileContent fs root cid p rOk = .invalidPath ↔
      (goStartsWith (goClean p) ".." || hasDD (goClean p) ||
        !goStartsWith (goJoin2 (goJoin2 root cid) (goClean p)) (goJoin2 root cid)) = true) := by
  by_cases h1 : (goStartsWith (goClean p) ".." || hasDD (goClean p)) = true
  · constructor
    · unfold downloadFile
      rw [if_neg (by simp [hid]), if_neg hp, if_pos h1]
      simp [h1]
    · unfold getFileContent
      rw [if_neg (by simp [hid]), if_neg hp, if_pos h1]
      simp [h1]
  · by_cases h2 : goStartsWith (goJoin2 (goJoin2 root cid) (goClean p)) (goJoin2 root cid) = true
    · have hrhs : (goStartsWith (goClean p) ".." || hasDD (goClean p) ||
          !goStartsWith (goJoin2 (goJoin2 root cid) (goClean p)) (goJoin2 root cid)) = false := by
        simp only [Bool.or_eq_true] at h1
        push_neg at h1
        simp [h2, Bool.or_eq_false_iff]
        constructor
        · simpa using h1.1
        · simpa using h1.2
      constructor
      · unfold downloadFile
        rw [if_neg (by simp [hid]), if_neg hp, if_neg (by simp [h1]), if_neg (by simp [h2])]
        rw [hrhs]
        cases hl : fs.files.lookup (goJoin2 (goJoin2 root cid) (goClean p)) <;>
          cases oOk <;> simp <;>
          cases hd : isDirFS fs (goJoin2 (goJoin2 root cid) (goClean p)) <;> simp
      · unfold getFileContent
        rw [if_neg (by simp [hid]), if_neg hp, if_neg (by simp [h1]), if_neg (by simp [h2])]
        rw [hrhs]
        cases hl : fs.files.lookup (goJoin2 (goJoin2 root cid) (goClean p)) <;>
          cases rOk <;> simp <;>
          cases hd : isDirFS fs (goJoin2 (goJoin2 root cid) (goClean p)) <;> simp
    · have h2f : goStartsWith (goJoin2 (goJoin2 root cid) (goClean p)) (goJoin2 root cid)
          = false := by simpa using h2
      constructor
      · unfold downloadFile
        rw [if_neg (by simp [hid]), if_neg hp, if_neg (by simp [h1]), if_pos (by simp [h2f])]
        simp [h2f]
      · unfold getFileContent
        rw [if_neg (by simp [hid]), if_neg hp, if_neg (by simp [h1]), if_pos (by simp [h2f])]
        simp [h2f]

/-- Witness for the amended C3 at a concrete request. -/
theorem c3_amended_plain_prefix_check_witness :
    downloadFile FS.empty "/s" cidC "a.txt" true = .invalidPath ↔
      (goStartsWith (goClean "a.txt") ".." || hasDD (goClean "a.txt") ||
        !goStartsWith (goJoin2 (goJoin2 "/s" cidC) (goClean "a.txt"))
          (goJoin2 "/s" cidC)) = true :=
  (c3_amended_plain_prefix_check FS.empty "/s" cidC "a.txt" true true
    (by decide) (by decide)).1

/-- C4.  In `main.go`, `storeFiles` does reject an invalid CodebaseID
before touching the filesystem, but the auxiliary variant's
`UploadHandler` runs `os.MkdirAll(Join(StorageRoot, uuid))` before any
validation — there is none at all — so a request with the non-UUID
identifier `not-a-uuid` creates `mock-zfs-storage/not-a-uuid` on disk
even though the rest of the request then fails. -/
theorem c4_invalid_id_reaches_filesystem :
    uuidParseOk "not-a-uuid" = false ∧
    goJoin2 storageRootB "not-a-uuid" ∈
      (uploadHandlerB FS.empty "not-a-uuid" ⟨true, false, false, []⟩).1.dirs ∧
    storeFiles FS.empty "/s"
      ⟨true, "not-a-uuid", [], [⟨"f", [1], true, true, true, true, []⟩], true⟩ =
      (FS.empty, .invalidID) := by
  refine ⟨by decide, by decide, by decide⟩

/-- A part that passes every check writes its contents at its
destination. -/
theorem storeOne_success_lookup (d : String) (fields : List (String × String))
    (acc : FS × List String × Nat) (pt : FilePart) (h : partOk fields pt = true) :
    (storeOne d fields acc pt).1.files.lookup (destOf d fields pt) = some pt.content := by
  unfold partOk at h
  simp only [Bool.and_eq_true] at h
  obtain ⟨⟨⟨⟨⟨ho, hb⟩, hp⟩, hm⟩, hc⟩, hw⟩ := h
  have hbase : ¬(goBase pt.filename = "" ∨ goBase pt.filename = "." ∨
      goBase pt.filename = "..") := by
    have := by simpa using hb
    tauto
  have hpath : goStartsWith (goClean (effPath fields pt)) ".." = false := by simpa using hp
  unfold storeOne
  rw [if_neg (by simp [ho]), if_neg hbase, if_neg (by simp [hpath]), if_neg (by simp [hm]),
    if_neg (by simp [hc]), if_neg (by simp [hw])]
  exact lookup_createFile_self _ _ _

/-- After the whole loop, a successful part whose destination no later
part reuses still holds its contents. -/
theorem foldl_storeOne_member_stored (d : String) (fields : List (String × String))
    (l1 l2 : List FilePart) (pt : FilePart) (acc : FS × List String × Nat)
    (hok : partOk fields pt = true)
    (hafter : ∀ u ∈ l2, destOf d fields u ≠ destOf d fields pt) :
    ((l1 ++ pt :: l2).foldl (storeOne d fields) acc).1.files.lookup (destOf d fields pt) =
      some pt.content := by
  rw [List.foldl_append, List.foldl_cons,
    foldl_storeOne_lookup_ne d fields l2 _ _ hafter,
    storeOne_success_lookup d fields _ pt hok]

/-- C5.  Partial-failure isolation: in a batch where every part except
one passes all checks and writes, the response is a success whose
stored list is exactly the other parts' destinations (count `N − 1`);
when destinations do not collide each sibling's bytes are actually on
disk afterwards; and when the failing part died mid-copy its partially
written file is removed, so no file remains at its destination. -/
theorem c5_partial_failure_isolation (fs : FS) (root cid : String)
    (fields : List (String × String)) (xs ys : List FilePart) (bad : FilePart)
    (hid : uuidParseOk cid = true)
    (hxs : ∀ pt ∈ xs, partOk fields pt = true)
    (hys : ∀ pt ∈ ys, partOk fields pt = true)
    (hbad : partOk fields bad = false)
    (hne : xs ++ ys ≠ []) :
    (∃ total, (storeFiles fs root ⟨true, cid, fields, xs ++ bad :: ys, true⟩).2 =
        .success ((xs ++ ys).map (fun pt => goClean (effPath fields pt))) total) ∧
    ((xs ++ ys).map (fun pt => goClean (effPath fields pt))).length + 1 =
      (xs ++ bad :: ys).length ∧
    ((xs ++ bad :: ys).Pairwise
        (fun a b => destOf (goJoin2 root cid) fields a ≠ destOf (goJoin2 root cid) fields b) →
      ∀ pt, pt ∈ xs ∨ pt ∈ ys →
        (storeFiles fs root ⟨true, cid, fields, xs ++ bad :: ys, true⟩).1.files.lookup
          (destOf (goJoin2 root cid) fields pt) = some pt.content) ∧
    (bad.openOk = true → goBase bad.filename ≠ "" → goBase bad.filename ≠ "." →
      goBase bad.filename ≠ ".." →
      goStartsWith (goClean (effPath fields bad)) ".." = false →
      bad.mkdirOk = true → bad.createOk = true → bad.copyOk = false →
      (∀ pt ∈ ys, destOf (goJoin2 root cid) fields pt ≠ destOf (goJoin2 root cid) fields bad) →
      (storeFiles fs root ⟨true, cid, fields, xs ++ bad :: ys, true⟩).1.files.lookup
        (destOf (goJoin2 root cid) fields bad) = none) := by
  have hfil : (xs ++ bad :: ys).filter (partOk fields) = xs ++ ys := by
    rw [List.filter_append, List.filter_cons_of_neg (by simp [hbad])]
    rw [List.filter_eq_self.mpr hxs, List.filter_eq_self.mpr hys]
  have hstored : ((xs ++ bad :: ys).foldl
      (storeOne (goJoin2 root cid) fields)
      (mkdirAll fs (goJoin2 root cid), [], 0)).2.1 =
      ((xs ++ ys).map (fun pt => goClean (effPath fields pt))).reverse := by
    rw [foldl_storeOne_stored, hfil]
    simp
  have hnonnil : ((xs ++ bad :: ys).foldl
      (storeOne (goJoin2 root cid) fields)
      (mkdirAll fs (goJoin2 root cid), [], 0)).2.1 ≠ [] := by
    rw [hstored]
    simp only [ne_eq, List.reverse_eq_nil_iff, List.map_eq_nil_iff]
    exact hne
  have hrun := storeFiles_eq_run fs root ⟨true, cid, fields, xs ++ bad :: ys, true⟩
    rfl hid (by simp) rfl
  rw [hrun] at *
  dsimp only at *
  rw [if_neg hnonnil]
  refine ⟨⟨_, by rw [hstored, List.reverse_reverse]⟩, by simp; omega, ?_, ?_⟩
  · intro hdist pt hpt
    rcases hpt with hpt | hpt
    · obtain ⟨l1, l2, hx⟩ := List.append_of_mem hpt
      subst hx
      have hsplit : (l1 ++ pt :: l2) ++ bad :: ys = l1 ++ pt :: (l2 ++ bad :: ys) := by
        simp
      rw [hsplit] at hdist ⊢
      have hrest : ∀ u ∈ l2 ++ bad :: ys,
          destOf (goJoin2 root cid) fields u ≠ destOf (goJoin2 root cid) fields pt := by
        intro u hu
        have hpair := (List.pairwise_append.mp hdist).2.1
        exact Ne.symm ((List.pairwise_cons.mp hpair).1 u hu)
      exact foldl_storeOne_member_stored _ _ l1 (l2 ++ bad :: ys) pt _
        (hxs pt (by simp)) hrest
    · obtain ⟨l1, l2, hy⟩ := List.append_of_mem hpt
      subst hy
      have hsplit : xs ++ bad :: (l1 ++ pt :: l2) = (xs ++ bad :: l1) ++ pt :: l2 := by
        simp
      rw [hsplit] at hdist ⊢
      have hrest : ∀ u ∈ l2,
          destOf (goJoin2 root cid) fields u ≠ destOf (goJoin2 root cid) fields pt := by
        intro u hu
        have hpair := (List.pairwise_append.mp hdist).2.1
        exact Ne.symm ((List.pairwise_cons.mp hpair).1 u hu)
      exact foldl_storeOne_member_stored _ _ (xs ++ bad :: l1) l2 pt _
        (hys pt (by simp)) hrest
  · intro ho hb1 hb2 hb3 hpth hm hc hw hdest
    rw [List.foldl_append, List.foldl_cons]
    rw [foldl_storeOne_lookup_ne _ _ ys _ _ (fun pt hpt => hdest pt hpt)]
    exact storeOne_copyFail_lookup _ _ _ _ ho hb1 hb2 hb3 hpth hm hc hw

/-- Witness for C5: a 3-file batch whose middle file has an unwritable
destination stores the other two and reports count 2. -/
theorem c5_partial_failure_isolation_witness :
    ∃ total, (storeFiles FS.empty "/s"
      ⟨true, cidC, [],
        [⟨"a.txt", [1, 2], true, true, true, true, []⟩,
         ⟨"b.txt", [3], true, true, false, true, []⟩,
         ⟨"c.txt", [4], true, true, true, true, []⟩], true⟩).2 =
      .success ["a.txt", "c.txt"] total :=
  (c5_partial_failure_isolation FS.empty "/s" cidC []
    [⟨"a.txt", [1, 2], true, true, true, true, []⟩]
    [⟨"c.txt", [4], true, true, true, true, []⟩]
    ⟨"b.txt", [3], true, true, false, true, []⟩
    (by decide) (by decide) (by decide) (by decide) (by decide)).1

/-- Shared core for the all-parts-fail behaviour of `storeFiles`. -/
theorem storeFiles_all_parts_fail (fs : FS) (root cid : String)
    (fields : List (String × String)) (parts : List FilePart)
    (hid : uuidParseOk cid = true) (hne : parts ≠ [])
    (hall : ∀ pt ∈ parts, partOk fields pt = false) :
    (storeFiles fs root ⟨true, cid, fields, parts, true⟩).2 = .allFailed ∧
    goJoin2 root cid ∉ (storeFiles fs root ⟨true, cid, fields, parts, true⟩).1.dirs ∧
    ∀ q, (q = goJoin2 root cid ∨ goStartsWith q (goJoin2 root cid ++ "/") = true) →
      (storeFiles fs root ⟨true, cid, fields, parts, true⟩).1.files.lookup q = none := by
  have hfil : parts.filter (partOk fields) = [] := by
    rw [List.filter_eq_nil_iff]
    intro pt hpt
    simp [hall pt hpt]
  have hstored : (parts.foldl (storeOne (goJoin2 root cid) fields)
      (mkdirAll fs (goJoin2 root cid), [], 0)).2.1 = [] := by
    rw [foldl_storeOne_stored, hfil]
    simp
  have hrun := storeFiles_eq_run fs root ⟨true, cid, fields, parts, true⟩ rfl hid hne rfl
  rw [hrun] at *
  dsimp only at *
  rw [if_pos hstored]
  refine ⟨rfl, ?_, ?_⟩
  · intro hmem
    have := (List.mem_filter.mp hmem).2
    simp at this
  · intro q hq
    exact lookup_removeAll_under _ _ _ hq

/-- C6.  When every file of a non-empty batch fails, the handler
reports overall failure and removes the codebase directory: it is no
longer present among the directories, and no file remains at or below
it. -/
theorem c6_all_fail_rollback (fs : FS) (root cid : String)
    (fields : List (String × String)) (parts : List FilePart)
    (hid : uuidParseOk cid = true) (hne : parts ≠ [])
    (hall : ∀ pt ∈ parts, partOk fields pt = false) :
    (storeFiles fs root ⟨true, cid, fields, parts, true⟩).2 = .allFailed ∧
    goJoin2 root cid ∉ (storeFiles fs root ⟨true, cid, fields, parts, true⟩).1.dirs ∧
    ∀ q, (q = goJoin2 root cid ∨ goStartsWith q (goJoin2 root cid ++ "/") = true) →
      (storeFiles fs root ⟨true, cid, fields, parts, true⟩).1.files.lookup q = none :=
  storeFiles_all_parts_fail fs root cid fields parts hid hne hall

/-- Witness for C6: a single-file batch whose file has an unwritable
destination reports failure and leaves nothing at the codebase
directory. -/
theorem c6_all_fail_rollback_witness :
    (storeFiles FS.empty "/s"
      ⟨true, cidC, [], [⟨"a.txt", [1], true, true, false, true, []⟩], true⟩).2 =
      .allFailed ∧
    goJoin2 "/s" cidC ∉
      (storeFiles FS.empty "/s"
        ⟨true, cidC, [], [⟨"a.txt", [1], true, true, false, true, []⟩], true⟩).1.dirs :=
  ⟨(c6_all_fail_rollback FS.empty "/s" cidC [] _ (by decide) (by decide) (by decide)).1,
   (c6_all_fail_rollback FS.empty "/s" cidC [] _ (by decide) (by decide) (by decide)).2.1⟩

/-- C7.  The rollback on a fully failed batch is `os.RemoveAll` on the
whole codebase directory: any file stored under `root/CodebaseID` by
earlier successful uploads — present in the starting filesystem — is
deleted too; the rollback is not limited to undoing the directory the
failing request created. -/
theorem c7_rollback_removes_earlier_uploads (fs : FS) (root cid : String)
    (fields : List (String × String)) (parts : List FilePart) (q : String) (b : Bytes)
    (hid : uuidParseOk cid = true) (hne : parts ≠ [])
    (hall : ∀ pt ∈ parts, partOk fields pt = false)
    (hq : goStartsWith q (goJoin2 root cid ++ "/") = true)
    (_hfile : fs.files.lookup q = some b) :
    (storeFiles fs root ⟨true, cid, fields, parts, true⟩).1.files.lookup q = none :=
  (storeFiles_all_parts_fail fs root cid fields parts hid hne hall).2.2 q (Or.inr hq)

/-- Witness for C7: a file stored by an earlier upload under the
codebase directory disappears after a later all-failing batch. -/
theorem c7_rollback_removes_earlier_uploads_witness :
    (storeFiles ⟨[(goJoin2 "/s" cidC ++ "/old.txt", [9, 9])], [goJoin2 "/s" cidC]⟩ "/s"
      ⟨true, cidC, [], [⟨"a.txt", [1], true, true, false, true, []⟩], true⟩).1.files.lookup
      (goJoin2 "/s" cidC ++ "/old.txt") = none :=
  c7_rollback_removes_earlier_uploads
    ⟨[(goJoin2 "/s" cidC ++ "/old.txt", [9, 9])], [goJoin2 "/s" cidC]⟩ "/s" cidC []
    [⟨"a.txt", [1], true, true, false, true, []⟩] (goJoin2 "/s" cidC ++ "/old.txt") [9, 9]
    (by decide) (by decide) (by decide) (by decide) (by decide)

/-- C8 counterexample.  On `cbuf` (8400 valid bytes, 83 zero bytes in
front) the code's classifier divides the zero count by the total length
(83/8400 ≤ 1%, so: text) while the spec's reference classifier divides
by the 8192-byte inspected window (83/8192 > 1%, so: binary). -/
theorem c8_classifier_counterexample :
    isTextFile cbuf = true ∧ specIsTextFile cbuf = false := by
  have hmem : ∀ b ∈ cbuf, b < 128 := by
    intro b hb
    unfold cbuf at hb
    rcases List.mem_append.mp hb with h | h
    · rw [(List.mem_replicate.mp h).2]; omega
    · rw [(List.mem_replicate.mp h).2]; omega
  have hvalid := utf8Valid_ascii cbuf hmem
  have hlen : cbuf.length = 8400 := by
    unfold cbuf
    rw [List.length_append, List.length_replicate, List.length_replicate]
  have htake93 : cbuf.take 8193 = List.replicate 83 0 ++ List.replicate 8110 97 := by
    unfold cbuf
    rw [List.take_append_eq_append_take, List.take_replicate, List.take_replicate]
    norm_num
  have htake92 : cbuf.take 8192 = List.replicate 83 0 ++ List.replicate 8109 97 := by
    unfold cbuf
    rw [List.take_append_eq_append_take, List.take_replicate, List.take_replicate]
    norm_num
  constructor
  · rw [isTextFile_eq_amended]
    unfold specIsTextFileAmended
    rw [if_neg (by rw [hlen]; omega), if_neg (not_not_intro hvalid)]
    rw [htake93, hlen]
    dsimp only
    rw [List.countP_append, List.countP_append, List.countP_replicate, List.countP_replicate,
      List.countP_replicate, List.countP_replicate]
    norm_num [isCtrlByte]
  · unfold specIsTextFile
    rw [if_neg (by rw [hlen]; omega), if_neg (not_not_intro hvalid)]
    rw [htake92, hlen]
    dsimp only
    rw [List.countP_append, List.countP_append, List.countP_replicate, List.countP_replicate,
      List.countP_replicate, List.countP_replicate]
    norm_num [isCtrlByte]

/-- C8 amended.  `isTextFile` equals the reference classifier with the
two corrections the code forces: the inspected window is the first 8193
bytes (the loop breaks only after index 8192), and both ratios are
taken over the total buffer length rather than over the window. -/
theorem c8_amended_classifier (content : Bytes) :
    isTextFile content = specIsTextFileAmended content :=
  isTextFile_eq_amended content

/-- C9 counterexample.  A 10-byte buffer with exactly one zero byte —
one null byte per 10 bytes, the rest printable ASCII — is classified as
text, because buffers of total length at most 100 skip the ratio checks
entirely. -/
theorem c9_small_buffer_counterexample :
    buf10.length = 10 ∧ buf10.countP (· == 0) = 1 ∧
    (∀ x ∈ buf10, x = 0 ∨ (32 ≤ x ∧ x ≤ 126)) ∧
    isTextFile buf10 = true := by decide

theorem flatten_countP_of_ones (p : Nat → Bool) (bs : List Bytes)
    (h : ∀ b ∈ bs, b.countP p = 1) : bs.flatten.countP p = bs.length := by
  induction bs with
  | nil => rfl
  | cons b t ih =>
    rw [List.flatten_cons, List.countP_append, h b (by simp),
      ih (fun u hu => h u (by simp [hu]))]
    simp [Nat.add_comm]

theorem flatten_length_of_ten (bs : List Bytes)
    (h : ∀ b ∈ bs, b.length = 10) : bs.flatten.length = 10 * bs.length := by
  induction bs with
  | nil => rfl
  | cons b t ih =>
    rw [List.flatten_cons, List.length_append, h b (by simp),
      ih (fun u hu => h u (by simp [hu])), List.length_cons]
    ring

/-- C9 amended.  A buffer made of 10-byte blocks, each holding exactly
one zero byte and otherwise ASCII, is classified as binary provided its
total length exceeds 100 and the buffer fits inside the inspected
window (8193 bytes).  (Below 101 bytes the ratio checks are skipped and
the verdict is text; far beyond the window the zero count is capped
while the divisor keeps growing, so the verdict eventually flips back
to text.) -/
theorem c9_one_null_per_ten_binary (bs : List Bytes)
    (hblocks : ∀ b ∈ bs, b.length = 10 ∧ b.countP (· == 0) = 1 ∧ ∀ x ∈ b, x < 128)
    (hlo : 100 < bs.flatten.length) (hhi : bs.flatten.length ≤ 8193) :
    isTextFile bs.flatten = false := by
  have hlenf : bs.flatten.length = 10 * bs.length :=
    flatten_length_of_ten bs (fun b hb => (hblocks b hb).1)
  have hnulls : bs.flatten.countP (· == 0) = bs.length :=
    flatten_countP_of_ones _ bs (fun b hb => (hblocks b hb).2.1)
  have hvalid : utf8Valid bs.flatten = true := by
    apply utf8Valid_ascii
    intro x hx
    obtain ⟨b, hb, hxb⟩ := List.mem_flatten.mp hx
    exact (hblocks b hb).2.2 x hxb
  have hk : 11 ≤ bs.length := by omega
  rw [isTextFile_eq_amended]
  unfold specIsTextFileAmended
  rw [if_neg (by omega), if_neg (not_not_intro hvalid)]
  dsimp only
  rw [List.take_of_length_le hhi, hnulls]
  rw [if_pos hlo, if_pos (by omega)]

/-- Witness for the amended C9: eleven 10-byte blocks, each with one
null byte. -/
theorem c9_one_null_per_ten_binary_witness :
    isTextFile (List.replicate 11 buf10).flatten = false :=
  c9_one_null_per_ten_binary (List.replicate 11 buf10)
    (by decide) (by decide) (by decide)

/-- C10 counterexample.  For the codebase holding exactly `x.txt` and
`sub/y.bin`, the archive built by `createZipArchive` has three entries,
not two: the walk emits an explicit directory entry `sub/` before the
two file entries. -/
theorem c10_zip_counterexample :
    (createZipArchive (zipFS [1] [2]) baseC).map (·.name) =
      ["sub/", "sub/y.bin", "x.txt"] ∧
    (createZipArchive (zipFS [1] [2]) baseC).length ≠ 2 := by
  constructor
  · rfl
  · intro h
    rw [(rfl : (createZipArchive (zipFS [1] [2]) baseC).length = 3)] at h
    cases h

set_option maxHeartbeats 4000000 in
/-- C10 amended.  For a codebase holding exactly `x.txt` and
`sub/y.bin`, `createZipArchive` (main.go) yields exactly three entries
in walk order — the zero-length directory entry `sub/` and the two file
entries `sub/y.bin` and `x.txt`, each carrying exactly the stored bytes
and named with forward slashes — while the auxiliary variant's ZIP walk
(part_000), which skips directories, yields exactly the two file
entries of the original claim. -/
theorem c10_zip_archive_entries (xb yb : Bytes) :
    createZipArchive (zipFS xb yb) baseC =
      [⟨"sub/", true, []⟩, ⟨"sub/y.bin", false, yb⟩, ⟨"x.txt", false, xb⟩] ∧
    zipEntriesB (zipFS xb yb) baseC =
      [⟨"sub/y.bin", false, yb⟩, ⟨"x.txt", false, xb⟩] :=
  ⟨rfl, rfl⟩

end ServerB
